import Mathlib

/-!
A shallow embedding of the golinks alias/command resolution core
(main.go, history.go and the HTTP server file).  The bitcask-backed
key-value database is modelled as an association list from string keys to
cells, kept in ascending byte-lexicographic key order (the order in which
bitcask enumerates keys during a prefix scan); keys here are ASCII, so
ordering the character lists coincides with ordering the bytes.  JSON
serialization of history entries is modelled as an injective constructor
with a partial inverse, and each HTTP handler as a pure state-passing
function whose response writes are reified in a small result type.  The
command registry and the bookmark lookup live in repository files outside
the embedded sources and are modelled from the specification, as marked in
their doc comments.
-/

/-- HistoryEntry from history.go: a timestamp in nanoseconds since the
epoch, the dispatched command or bookmark name, and the value string. -/
structure HistoryEntry where
  Timestamp : Int
  Command : String
  Value : String
deriving DecidableEq, Repr

/-- Byte strings held in the database.  jsonHE e stands for the JSON
serialization of the history entry e as produced by json.Marshal, which is
injective for this record type; raw s stands for any other byte content
(bookmark values, corrupted records). -/
inductive Bytes where
  | jsonHE (e : HistoryEntry)
  | raw (s : String)
deriving DecidableEq, Repr

/-- json.Marshal on a HistoryEntry value.  For this record type (an integer
and two strings) Go marshalling never fails, so the result is always ok. -/
def jsonMarshalHistoryEntry (e : HistoryEntry) : Except String Bytes :=
  .ok (.jsonHE e)

/-- json.Unmarshal of stored bytes into a HistoryEntry: the serialization of
an entry decodes back to it, any other bytes fail to deserialize. -/
def jsonUnmarshalHistoryEntry : Bytes → Option HistoryEntry
  | .jsonHE e => some e
  | .raw _ => none

/-- What db.Get returns for a stored key: the readable bytes, or a
store-level read error (error msg). -/
abbrev GetOutcome := Except String Bytes

/-- The bitcask database: an association list from keys to cells, kept in
ascending byte-lexicographic key order, which is the order bitcask visits
keys in a prefix scan.  Keys are unique. -/
abbrev Store := List (String × GetOutcome)

/-- db.Put: overwrite the cell of an existing key, or insert the new key at
its ordered position. -/
def storePut (db : Store) (k : String) (v : Bytes) : Store :=
  match db with
  | [] => [(k, .ok v)]
  | (k2, v2) :: rest =>
    if k = k2 then (k, .ok v) :: rest
    else if k.data < k2.data then (k, .ok v) :: (k2, v2) :: rest
    else (k2, v2) :: storePut rest k v

/-- db.Get observed through the association list: the cell stored at a key,
or none when the key is absent. -/
def storeGet (db : Store) (k : String) : Option GetOutcome :=
  match db with
  | [] => none
  | (k2, v2) :: rest => if k2 = k then some v2 else storeGet rest k

/-- db.Scan(prefix, visit): the cells visited, namely every stored pair
whose key begins with the given byte sequence, in store order. -/
def storeScan (db : Store) (pre : String) : List (String × GetOutcome) :=
  db.filter (fun kv => pre.data.isPrefixOf kv.1.data)

/-- BuildHistoryKey from history.go: fmt.Sprintf("history_%d", timestamp),
the fixed prefix followed by the decimal string of the timestamp. -/
def BuildHistoryKey (timestamp : Int) : String :=
  "history_" ++ toString timestamp

/-- AddHistoryEntry from history.go with its effectful collaborators made
explicit: now models the time.Now().UnixNano() reading, marshal models
json.Marshal (the real marshaller for this type is
jsonMarshalHistoryEntry), and putErr models the error result of db.Put
(none meaning the write succeeds; a failed bitcask put leaves the key
index unchanged).  Returns the error value AddHistoryEntry returns,
paired with the database after the call. -/
def AddHistoryEntryFx (marshal : HistoryEntry → Except String Bytes)
    (putErr : Option String) (now : Int) (db : Store)
    (command value : String) : Option String × Store :=
  let ts := now
  let historyEntry : HistoryEntry :=
    { Timestamp := ts, Command := command, Value := value }
  let key := BuildHistoryKey ts
  match marshal historyEntry with
  | .error err => (some err, db)
  | .ok b =>
    match putErr with
    | some err => (some err, db)
    | none => (none, storePut db key b)

/-- AddHistoryEntry in the run where marshalling and the store write both
succeed: the database after the call. -/
def AddHistoryEntry (now : Int) (db : Store) (command value : String) : Store :=
  (AddHistoryEntryFx jsonMarshalHistoryEntry none now db command value).2

/-- Config as populated in main.go (cfg.Title, cfg.FQDN, cfg.URL,
cfg.SuggestURL); URL is the default redirect URL template used by the
fallback branch of IndexHandler. -/
structure Config where
  Title : String
  FQDN : String
  URL : String
  SuggestURL : String
deriving DecidableEq, Repr

/-- Modelled from the spec: the command registry file is not among the
embedded sources.  A built-in command has a unique name and a polymorphic
Exec behaviour; Exec writes to the response writer and returns an error.
The write is abstracted away, keeping only the returned error, with none
for success and some msg for a failure with message msg. -/
structure Command where
  name : String
  exec : List String → Option String

/-- Modelled from the spec: LookupCommand is an exact, case-sensitive
lookup of a name in the fixed registry of built-in commands, returning the
command on a hit and nothing otherwise. -/
def LookupCommand (commands : List Command) (name : String) : Option Command :=
  commands.find? (fun c => c.name == name)

/-- Bookmark: a name and the URL template the query is substituted into. -/
structure Bookmark where
  Name : String
  URL : String
deriving DecidableEq, Repr

/-- Worker for goSplit: cut a character list at every non-overlapping
occurrence of the non-empty separator, scanning left to right.  The fuel
argument only bounds the recursion; it starts at the length of the input,
every step consumes at least one character, and the input is empty by the
time the fuel runs out, so the fuel-exhausted branch is never taken. -/
def goSplitAux (sep : List Char) (s : List Char) (fuel : Nat) :
    List (List Char) :=
  match fuel, s with
  | _, [] => [[]]
  | 0, s => [s]
  | Nat.succ f, c :: rest =>
    if sep.isPrefixOf (c :: rest) then
      [] :: goSplitAux sep (List.drop sep.length (c :: rest)) f
    else
      match goSplitAux sep rest f with
      | [] => [[c]]
      | g :: gs => (c :: g) :: gs

/-- strings.Split from the Go standard library for a non-empty separator:
all substrings between consecutive occurrences of the separator, so the
result of splitting the empty string is one empty field and a string
without the separator is returned whole. -/
def goSplit (s sep : String) : List String :=
  (goSplitAux sep.data s.data s.data.length).map (fun cs => String.mk cs)

/-- fmt.Sprintf for a format string whose only verbs are %s, applied to one
string argument, as the Go fmt package renders it: the first %s receives
the argument, later %s verbs render as a missing-argument marker, and a
format without any verb gets the extra argument appended in the
fmt error form. -/
def goSprintfS (format arg : String) : String :=
  match goSplit format "%s" with
  | [] => ""
  | [s] => s ++ "%!(EXTRA string=" ++ arg ++ ")"
  | s :: rest => s ++ arg ++ String.intercalate "%!s(MISSING)" rest

/-- Modelled from the spec: the bookmark Exec file is not among the
embedded sources.  Exec substitutes the query into the URL template
(single %s-style placeholder); a template without a placeholder ignores
the query.  This gives the redirect target it computes. -/
def bookmarkExecTarget (b : Bookmark) (q : String) : String :=
  if (goSplit b.URL "%s").length > 1 then goSprintfS b.URL q else b.URL

/-- The response IndexHandler writes, one constructor per write path:
the rendered index page, the output of a successfully executed command,
the 500 error page written when a command execution fails (history is
still appended afterwards), the redirect issued by a bookmark, the
fallback redirect to the configured URL, and the 400 invalid-command
error. -/
inductive IndexResponse where
  | index
  | commandOutput (name : String)
  | commandError (name : String) (msg : String)
  | bookmarkRedirect (name : String) (target : String)
  | fallbackRedirect (target : String)
  | invalidCommand (cmd : String)
deriving DecidableEq, Repr

/-- Token and argument extraction at the top of IndexHandler: a non-empty
query string q (from ?q= or the form field) is split on single spaces into
the command token and the argument tokens; otherwise the command and args
come from the router path parameters, with args split on slashes. -/
def indexHandlerTokens (q pathCommand pathArgs : String) :
    String × List String :=
  if q ≠ "" then
    match goSplit q " " with
    | [] => ("", [])
    | t :: ts => (t, ts)
  else
    (pathCommand, goSplit pathArgs "/")

/-- The dispatch of IndexHandler as a pure function of its collaborators:
the command registry, the bookmark lookup (modelled from the spec, reading
the bookmark store by name), the configuration, the clock reading now used
by any history append, the database, and the three request inputs.
Returns the response written and the database after any history append.
An empty token renders the index page; a registry hit executes the
command (writing a 500 page on execution error) and then appends a history
entry with an empty value either way; a bookmark hit issues its redirect
and appends a history entry whose value is the space-joined argument list;
otherwise a non-empty configured URL template yields a fallback redirect,
with the raw query substituted when it is non-empty, and an empty one
yields the 400 invalid-command error. -/
def IndexHandler (commands : List Command)
    (bookmarks : String → Option Bookmark) (config : Config)
    (now : Int) (db : Store) (q pathCommand pathArgs : String) :
    IndexResponse × Store :=
  let toks := indexHandlerTokens q pathCommand pathArgs
  let cmd := toks.1
  let args := toks.2
  if cmd = "" then
    (.index, db)
  else
    match LookupCommand commands cmd with
    | some command =>
      let resp := match command.exec args with
        | some err => IndexResponse.commandError command.name err
        | none => IndexResponse.commandOutput command.name
      (resp, AddHistoryEntry now db command.name "")
    | none =>
      match bookmarks cmd with
      | some bookmark =>
        let joined := String.intercalate " " args
        (.bookmarkRedirect bookmark.Name (bookmarkExecTarget bookmark joined),
          AddHistoryEntry now db bookmark.Name joined)
      | none =>
        if config.URL ≠ "" then
          let target := if q ≠ "" then goSprintfS config.URL q else config.URL
          (.fallbackRedirect target, db)
        else
          (.invalidCommand cmd, db)

/-- The visit body of the history scan: a failed db.Get is logged and
skipped, bytes that fail json.Unmarshal are logged and skipped, and a
decoded entry is collected. -/
def historyVisit (cell : GetOutcome) : Option HistoryEntry :=
  match cell with
  | .error _ => none
  | .ok b => jsonUnmarshalHistoryEntry b

/-- The entry list HistoryHandler renders: scan the cells under the
history prefix in store order, keep those that read and decode
successfully, and reverse the result so the newest key comes first. -/
def HistoryHandlerEntries (db : Store) : List HistoryEntry :=
  let allEntries := (storeScan db "history_").filterMap
    (fun kv => historyVisit kv.2)
  allEntries.reverse

/-- The full response of HistoryHandler.  The visit callback never returns
an error, so db.Scan can only fail for a store-internal reason, modelled
by scanErr; on such a failure the handler writes a bare 500, otherwise it
renders the page with the collected entries. -/
inductive HistoryResponse where
  | serverError
  | page (entries : List HistoryEntry)
deriving DecidableEq, Repr

/-- HistoryHandler: a store-internal scan failure yields the 500 response,
otherwise the rendered entry list. -/
def HistoryHandler (scanErr : Option String) (db : Store) : HistoryResponse :=
  match scanErr with
  | some _ => .serverError
  | none => .page (HistoryHandlerEntries db)

/-- A put makes the written pair a member of the store. -/
theorem storePut_mem_self (db : Store) (k : String) (v : Bytes) :
    (k, Except.ok v) ∈ storePut db k v := by
  induction db with
  | nil => simp [storePut]
  | cons kv rest ih =>
    obtain ⟨k2, v2⟩ := kv
    simp only [storePut]
    split
    · exact List.mem_cons_self _ _
    · split
      · exact List.mem_cons_self _ _
      · exact List.mem_cons_of_mem _ ih

/-- Every pair in the store after a put is the written pair or was already
present. -/
theorem storePut_subset (db : Store) (k : String) (v : Bytes) :
    ∀ kv ∈ storePut db k v, kv = (k, Except.ok v) ∨ kv ∈ db := by
  induction db with
  | nil =>
    intro kv h
    simp [storePut] at h
    exact Or.inl h
  | cons kv0 rest ih =>
    obtain ⟨k2, v2⟩ := kv0
    intro kv h
    simp only [storePut] at h
    split at h
    · rcases List.mem_cons.1 h with h1 | h1
      · exact Or.inl h1
      · exact Or.inr (List.mem_cons_of_mem _ h1)
    · split at h
      · rcases List.mem_cons.1 h with h1 | h1
        · exact Or.inl h1
        · exact Or.inr h1
      · rcases List.mem_cons.1 h with h1 | h1
        · exact Or.inr (h1 ▸ List.mem_cons_self _ _)
        · rcases ih kv h1 with h2 | h2
          · exact Or.inl h2
          · exact Or.inr (List.mem_cons_of_mem _ h2)

/-- Reading back the key just written yields the written bytes. -/
theorem storeGet_put_self (db : Store) (k : String) (v : Bytes) :
    storeGet (storePut db k v) k = some (.ok v) := by
  induction db with
  | nil => simp [storePut, storeGet]
  | cons kv rest ih =>
    obtain ⟨k2, v2⟩ := kv
    simp only [storePut]
    split
    · simp [storeGet]
    · split
      · simp [storeGet]
      · rename_i hne hlt
        simp only [storeGet]
        rw [if_neg (fun h => hne h.symm)]
        exact ih

/-- Reading any other key is unaffected by a put. -/
theorem storeGet_put_ne (db : Store) (k k2 : String) (v : Bytes)
    (h : k2 ≠ k) :
    storeGet (storePut db k v) k2 = storeGet db k2 := by
  induction db with
  | nil =>
    simp only [storePut, storeGet]
    rw [if_neg (fun he => h he.symm)]
  | cons kv rest ih =>
    obtain ⟨ka, va⟩ := kv
    simp only [storePut]
    split
    · rename_i heq
      simp only [storeGet]
      rw [if_neg (fun he => h he.symm), if_neg (fun he => h (heq ▸ he).symm)]
    · split
      · simp only [storeGet]
        rw [if_neg (fun he => h he.symm)]
      · simp only [storeGet]
        split
        · rfl
        · exact ih

/-- Every history key starts with the history byte prefix. -/
theorem historyKey_hasPre (t : Int) :
    "history_".data.isPrefixOf (BuildHistoryKey t).data = true := by
  unfold BuildHistoryKey
  rw [String.data_append, List.isPrefixOf_iff_prefix]
  exact List.prefix_append _ _

/-- Claim C1: a token that is both a registered command name and a stored
bookmark name is dispatched as the command: the Exec outcome of the
command determines the response, a bookmark redirect is never written,
and the history entry records the command name with an empty value. -/
theorem claim_precedence_command_over_bookmark
    (commands : List Command) (bookmarks : String → Option Bookmark)
    (config : Config) (now : Int) (db : Store)
    (q pathCommand pathArgs : String) (c : Command) (b : Bookmark)
    (hne : (indexHandlerTokens q pathCommand pathArgs).1 ≠ "")
    (hc : LookupCommand commands
      (indexHandlerTokens q pathCommand pathArgs).1 = some c)
    (_hb : bookmarks (indexHandlerTokens q pathCommand pathArgs).1 = some b) :
    ((∃ msg,
        (IndexHandler commands bookmarks config now db q pathCommand
          pathArgs).1 = .commandError c.name msg) ∨
      (IndexHandler commands bookmarks config now db q pathCommand
        pathArgs).1 = .commandOutput c.name) ∧
    (∀ nm target,
      (IndexHandler commands bookmarks config now db q pathCommand
        pathArgs).1 ≠ .bookmarkRedirect nm target) ∧
    (IndexHandler commands bookmarks config now db q pathCommand
      pathArgs).2 = AddHistoryEntry now db c.name "" := by
  have hIH : IndexHandler commands bookmarks config now db q pathCommand
      pathArgs =
      ((match c.exec (indexHandlerTokens q pathCommand pathArgs).2 with
        | some err => IndexResponse.commandError c.name err
        | none => IndexResponse.commandOutput c.name),
        AddHistoryEntry now db c.name "") := by
    simp only [IndexHandler]
    rw [if_neg hne, hc]
  rw [hIH]
  cases hexec : c.exec (indexHandlerTokens q pathCommand pathArgs).2 with
  | none =>
    exact ⟨Or.inr rfl, fun nm target h => IndexResponse.noConfusion h, rfl⟩
  | some msg =>
    exact ⟨Or.inl ⟨msg, rfl⟩, fun nm target h => IndexResponse.noConfusion h,
      rfl⟩

/-- Claim C1 witness at a concrete registry and bookmark store sharing the
name go. -/
theorem claim_precedence_command_over_bookmark_witness :
    (IndexHandler [⟨"go", fun _ => none⟩]
      (fun n => if n == "go" then some ⟨"go", "https://golang.org/?q=%s"⟩
        else none)
      ⟨"Search", "localhost:8000", "", ""⟩ 1 [] "go x" "" "").2 =
      AddHistoryEntry 1 [] "go" "" :=
  (claim_precedence_command_over_bookmark
    [⟨"go", fun _ => none⟩]
    (fun n => if n == "go" then some ⟨"go", "https://golang.org/?q=%s"⟩
      else none)
    ⟨"Search", "localhost:8000", "", ""⟩ 1 [] "go x" "" ""
    ⟨"go", fun _ => none⟩ ⟨"go", "https://golang.org/?q=%s"⟩
    (by decide) rfl rfl).2.2

/-- Claim C2: a non-empty token matching neither a command nor a bookmark
is sent to the configured fallback URL template when that template is
non-empty, with the raw query text substituted when one was supplied and
the literal template otherwise, and yields the 400 invalid-command error
when the template is empty.  In both cases no history is appended. -/
theorem claim_fallback_ordering
    (commands : List Command) (bookmarks : String → Option Bookmark)
    (config : Config) (now : Int) (db : Store)
    (q pathCommand pathArgs : String)
    (hne : (indexHandlerTokens q pathCommand pathArgs).1 ≠ "")
    (hc : LookupCommand commands
      (indexHandlerTokens q pathCommand pathArgs).1 = none)
    (hb : bookmarks (indexHandlerTokens q pathCommand pathArgs).1 = none) :
    (config.URL ≠ "" →
      IndexHandler commands bookmarks config now db q pathCommand pathArgs =
        (.fallbackRedirect
          (if q ≠ "" then goSprintfS config.URL q else config.URL), db)) ∧
    (config.URL = "" →
      IndexHandler commands bookmarks config now db q pathCommand pathArgs =
        (.invalidCommand (indexHandlerTokens q pathCommand pathArgs).1,
          db)) := by
  constructor
  · intro hurl
    simp only [IndexHandler]
    rw [if_neg hne, hc, hb, if_pos hurl]
  · intro hurl
    simp only [IndexHandler]
    rw [if_neg hne, hc, hb, if_neg (fun h => h hurl)]

/-- Claim C2 witness: with a configured template the token zzz is sent to
the fallback with the query substituted; with an empty template it is
rejected as invalid. -/
theorem claim_fallback_ordering_witness :
    IndexHandler [] (fun _ => none)
      ⟨"Search", "localhost:8000", "https://www.google.com/search?q=%s", ""⟩
      1 [] "zzz foo" "" "" =
      (.fallbackRedirect "https://www.google.com/search?q=zzz foo", []) ∧
    IndexHandler [] (fun _ => none)
      ⟨"Search", "localhost:8000", "", ""⟩ 1 [] "zzz foo" "" "" =
      (.invalidCommand "zzz", []) := by
  constructor
  · have h := claim_fallback_ordering [] (fun _ => none)
      ⟨"Search", "localhost:8000", "https://www.google.com/search?q=%s", ""⟩
      1 [] "zzz foo" "" "" (by decide) rfl rfl
    exact (h.1 (by decide)).trans rfl
  · have h := claim_fallback_ordering [] (fun _ => none)
      ⟨"Search", "localhost:8000", "", ""⟩ 1 [] "zzz foo" "" ""
      (by decide) rfl rfl
    exact (h.2 rfl).trans rfl

/-- Claim C9: an empty token renders the index page and leaves the
database, hence the history, unchanged. -/
theorem claim_empty_token_shows_index
    (commands : List Command) (bookmarks : String → Option Bookmark)
    (config : Config) (now : Int) (db : Store)
    (q pathCommand pathArgs : String)
    (h : (indexHandlerTokens q pathCommand pathArgs).1 = "") :
    IndexHandler commands bookmarks config now db q pathCommand pathArgs =
      (.index, db) := by
  simp only [IndexHandler]
  rw [if_pos h]

/-- Claim C9 witness: a request with no query and no path command renders
the index page over an untouched store. -/
theorem claim_empty_token_shows_index_witness :
    IndexHandler [] (fun _ => none)
      ⟨"Search", "localhost:8000", "https://e/%s", ""⟩ 1 [] "" "" "a/b" =
      (.index, []) :=
  claim_empty_token_shows_index [] (fun _ => none)
    ⟨"Search", "localhost:8000", "https://e/%s", ""⟩ 1 [] "" "" "a/b" rfl

/-- Claim C3 counterexample: a command whose execution fails (the handler
writes the 500 error page) still gets a history entry appended, so history
is not restricted to successful dispatches. -/
theorem claim_history_on_failed_exec_cex :
    IndexHandler [⟨"boom", fun _ => some "kaput"⟩] (fun _ => none)
      ⟨"Search", "localhost:8000", "", ""⟩ 5 [] "boom" "" "" =
      (.commandError "boom" "kaput",
        [("history_5", .ok (.jsonHE ⟨5, "boom", ""⟩))]) := rfl

/-- Claim C3 amended: a history entry is appended exactly when the token
resolves to a command or a bookmark, whether or not the command execution
succeeds; the entry carries the command name with an empty value, or the
bookmark name with the space-joined argument list.  Nothing is appended
for an empty token or a token resolving to neither. -/
theorem claim_history_append_characterization
    (commands : List Command) (bookmarks : String → Option Bookmark)
    (config : Config) (now : Int) (db : Store)
    (q pathCommand pathArgs : String) :
    ((indexHandlerTokens q pathCommand pathArgs).1 = "" →
      (IndexHandler commands bookmarks config now db q pathCommand
        pathArgs).2 = db) ∧
    (∀ c, (indexHandlerTokens q pathCommand pathArgs).1 ≠ "" →
      LookupCommand commands
        (indexHandlerTokens q pathCommand pathArgs).1 = some c →
      (IndexHandler commands bookmarks config now db q pathCommand
        pathArgs).2 = AddHistoryEntry now db c.name "") ∧
    (∀ b, (indexHandlerTokens q pathCommand pathArgs).1 ≠ "" →
      LookupCommand commands
        (indexHandlerTokens q pathCommand pathArgs).1 = none →
      bookmarks (indexHandlerTokens q pathCommand pathArgs).1 = some b →
      (IndexHandler commands bookmarks config now db q pathCommand
        pathArgs).2 = AddHistoryEntry now db b.Name
          (String.intercalate " "
            (indexHandlerTokens q pathCommand pathArgs).2)) ∧
    ((indexHandlerTokens q pathCommand pathArgs).1 ≠ "" →
      LookupCommand commands
        (indexHandlerTokens q pathCommand pathArgs).1 = none →
      bookmarks (indexHandlerTokens q pathCommand pathArgs).1 = none →
      (IndexHandler commands bookmarks config now db q pathCommand
        pathArgs).2 = db) := by
  refine ⟨?_, ?_, ?_, ?_⟩
  · intro h
    simp only [IndexHandler]
    rw [if_pos h]
  · intro c hne hc
    simp only [IndexHandler]
    rw [if_neg hne, hc]
  · intro b hne hc hb
    simp only [IndexHandler]
    rw [if_neg hne, hc, hb]
  · intro hne hc hb
    simp only [IndexHandler]
    rw [if_neg hne, hc, hb]
    by_cases hurl : config.URL = ""
    · rw [if_neg (fun h => h hurl)]
    · rw [if_pos hurl]

/-- Claim C3 amended witness: a failing command still appends its entry,
and an unresolved token leaves the store untouched. -/
theorem claim_history_append_characterization_witness :
    (IndexHandler [⟨"boom", fun _ => some "kaput"⟩] (fun _ => none)
      ⟨"Search", "localhost:8000", "", ""⟩ 5 [] "boom" "" "").2 =
      AddHistoryEntry 5 [] "boom" "" ∧
    (IndexHandler [] (fun _ => none)
      ⟨"Search", "localhost:8000", "", ""⟩ 5 [] "zzz" "" "").2 = [] := by
  constructor
  · exact (claim_history_append_characterization
      [⟨"boom", fun _ => some "kaput"⟩] (fun _ => none)
      ⟨"Search", "localhost:8000", "", ""⟩ 5 [] "boom" "" "").2.1
      ⟨"boom", fun _ => some "kaput"⟩ (by decide) rfl
  · exact (claim_history_append_characterization [] (fun _ => none)
      ⟨"Search", "localhost:8000", "", ""⟩ 5 [] "zzz" "" "").2.2.2
      (by decide) rfl rfl

/-- Scanning with the history prefix returns the whole store when every
stored key carries that prefix. -/
theorem scan_all_history (l : Store)
    (h : ∀ kv ∈ l, "history_".data.isPrefixOf kv.1.data = true) :
    storeScan l "history_" = l := by
  simp only [storeScan]
  rw [List.filter_eq_self]
  intro kv hkv
  exact h kv hkv

/-- Claim C4: appending three history entries whose keys ascend in the
byte order of the store (which holds whenever the three timestamps ascend
and their decimal strings have equal digit counts) and then listing the
history returns the three entries newest first, the reverse of the
ascending scan order. -/
theorem claim_history_list_reverse_chronological
    (t1 t2 t3 : Int) (cA vA cB vB cC vC : String)
    (hk12 : (BuildHistoryKey t1).data < (BuildHistoryKey t2).data)
    (hk23 : (BuildHistoryKey t2).data < (BuildHistoryKey t3).data)
    (hk13 : (BuildHistoryKey t1).data < (BuildHistoryKey t3).data) :
    HistoryHandlerEntries
      (AddHistoryEntry t3
        (AddHistoryEntry t2 (AddHistoryEntry t1 [] cA vA) cB vB) cC vC) =
      [⟨t3, cC, vC⟩, ⟨t2, cB, vB⟩, ⟨t1, cA, vA⟩] := by
  have hne21 : ¬ (BuildHistoryKey t2 = BuildHistoryKey t1) := by
    intro h
    rw [h] at hk12
    exact lt_irrefl _ hk12
  have hne31 : ¬ (BuildHistoryKey t3 = BuildHistoryKey t1) := by
    intro h
    rw [h] at hk13
    exact lt_irrefl _ hk13
  have hne32 : ¬ (BuildHistoryKey t3 = BuildHistoryKey t2) := by
    intro h
    rw [h] at hk23
    exact lt_irrefl _ hk23
  have hnl21 : ¬ ((BuildHistoryKey t2).data < (BuildHistoryKey t1).data) :=
    lt_asymm hk12
  have hnl31 : ¬ ((BuildHistoryKey t3).data < (BuildHistoryKey t1).data) :=
    lt_asymm hk13
  have hnl32 : ¬ ((BuildHistoryKey t3).data < (BuildHistoryKey t2).data) :=
    lt_asymm hk23
  have hstore : AddHistoryEntry t3
      (AddHistoryEntry t2 (AddHistoryEntry t1 [] cA vA) cB vB) cC vC =
      [(BuildHistoryKey t1, .ok (.jsonHE ⟨t1, cA, vA⟩)),
       (BuildHistoryKey t2, .ok (.jsonHE ⟨t2, cB, vB⟩)),
       (BuildHistoryKey t3, .ok (.jsonHE ⟨t3, cC, vC⟩))] := by
    simp only [AddHistoryEntry, AddHistoryEntryFx, jsonMarshalHistoryEntry,
      storePut, if_neg hne21, if_neg hnl21, if_neg hne31, if_neg hnl31,
      if_neg hne32, if_neg hnl32]
  rw [hstore]
  have hscan : storeScan
      [(BuildHistoryKey t1, .ok (.jsonHE ⟨t1, cA, vA⟩)),
       (BuildHistoryKey t2, .ok (.jsonHE ⟨t2, cB, vB⟩)),
       (BuildHistoryKey t3, .ok (.jsonHE ⟨t3, cC, vC⟩))] "history_" =
      [(BuildHistoryKey t1, .ok (.jsonHE ⟨t1, cA, vA⟩)),
       (BuildHistoryKey t2, .ok (.jsonHE ⟨t2, cB, vB⟩)),
       (BuildHistoryKey t3, .ok (.jsonHE ⟨t3, cC, vC⟩))] := by
    apply scan_all_history
    intro kv hkv
    simp only [List.mem_cons, List.not_mem_nil, or_false] at hkv
    rcases hkv with rfl | rfl | rfl
    · exact historyKey_hasPre t1
    · exact historyKey_hasPre t2
    · exact historyKey_hasPre t3
  simp only [HistoryHandlerEntries]
  rw [hscan]
  rfl

/-- Claim C4 witness at the timestamps 1, 2, 3, whose keys ascend in byte
order. -/
theorem claim_history_list_reverse_chronological_witness :
    HistoryHandlerEntries
      (AddHistoryEntry 3
        (AddHistoryEntry 2 (AddHistoryEntry 1 [] "a" "va") "b" "vb")
        "c" "vc") =
      [⟨3, "c", "vc"⟩, ⟨2, "b", "vb"⟩, ⟨1, "a", "va"⟩] :=
  claim_history_list_reverse_chronological 1 2 3 "a" "va" "b" "vb" "c" "vc"
    (by decide) (by decide) (by decide)

/-- Claim C5: after appending an entry for gh with value golang at a clock
reading strictly above every timestamp already decodable from the store,
the listed history contains the entry with Command gh, Value golang and
Timestamp equal to that reading, and every other listed entry has a
strictly smaller timestamp. -/
theorem claim_history_roundtrip (now : Int) (db : Store)
    (hprev : ∀ kv ∈ db, ∀ e : HistoryEntry,
      historyVisit kv.2 = some e → e.Timestamp < now) :
    (⟨now, "gh", "golang"⟩ : HistoryEntry) ∈
      HistoryHandlerEntries (AddHistoryEntry now db "gh" "golang") ∧
    ∀ e ∈ HistoryHandlerEntries (AddHistoryEntry now db "gh" "golang"),
      e ≠ ⟨now, "gh", "golang"⟩ → e.Timestamp < now := by
  have hput : AddHistoryEntry now db "gh" "golang" =
      storePut db (BuildHistoryKey now) (.jsonHE ⟨now, "gh", "golang"⟩) := rfl
  constructor
  · simp only [HistoryHandlerEntries, hput]
    rw [List.mem_reverse, List.mem_filterMap]
    refine ⟨(BuildHistoryKey now, .ok (.jsonHE ⟨now, "gh", "golang"⟩)),
      ?_, rfl⟩
    simp only [storeScan]
    rw [List.mem_filter]
    exact ⟨storePut_mem_self db _ _, historyKey_hasPre now⟩
  · intro e he hne
    simp only [HistoryHandlerEntries, hput] at he
    rw [List.mem_reverse, List.mem_filterMap] at he
    obtain ⟨kv, hkv, hdec⟩ := he
    simp only [storeScan] at hkv
    rw [List.mem_filter] at hkv
    rcases storePut_subset db (BuildHistoryKey now)
      (.jsonHE ⟨now, "gh", "golang"⟩) kv hkv.1 with heq | hmem
    · rw [heq] at hdec
      simp only [historyVisit, jsonUnmarshalHistoryEntry,
        Option.some.injEq] at hdec
      exact absurd hdec.symm hne
    · exact hprev kv hmem e hdec

/-- Claim C5 witness: the round trip at clock reading 5 over the empty
store. -/
theorem claim_history_roundtrip_witness :
    (⟨5, "gh", "golang"⟩ : HistoryEntry) ∈
      HistoryHandlerEntries (AddHistoryEntry 5 [] "gh" "golang") ∧
    ∀ e ∈ HistoryHandlerEntries (AddHistoryEntry 5 [] "gh" "golang"),
      e ≠ ⟨5, "gh", "golang"⟩ → e.Timestamp < 5 :=
  claim_history_roundtrip 5 []
    (fun kv hkv => absurd hkv (List.not_mem_nil kv))

/-- Claim C6: an append stores, under the key made of the history prefix
and the decimal timestamp, exactly the serialized record carrying that
same timestamp, command and value, and leaves the cell of every other key
unchanged. -/
theorem claim_append_writes_single_key (now : Int) (db : Store)
    (command value : String) :
    storeGet (AddHistoryEntry now db command value) (BuildHistoryKey now) =
      some (.ok (.jsonHE ⟨now, command, value⟩)) ∧
    ∀ k, k ≠ BuildHistoryKey now →
      storeGet (AddHistoryEntry now db command value) k = storeGet db k := by
  constructor
  · exact storeGet_put_self db (BuildHistoryKey now)
      (.jsonHE ⟨now, command, value⟩)
  · intro k hk
    exact storeGet_put_ne db (BuildHistoryKey now) k
      (.jsonHE ⟨now, command, value⟩) hk

/-- Claim C6 witness: the append at clock reading 7 writes history_7 and
leaves an existing bookmark cell alone. -/
theorem claim_append_writes_single_key_witness :
    storeGet (AddHistoryEntry 7 [("bookmark_x", .ok (.raw "u"))] "gh"
      "golang") (BuildHistoryKey 7) =
      some (.ok (.jsonHE ⟨7, "gh", "golang"⟩)) ∧
    storeGet (AddHistoryEntry 7 [("bookmark_x", .ok (.raw "u"))] "gh"
      "golang") "bookmark_x" = some (.ok (.raw "u")) := by
  have h := claim_append_writes_single_key 7
    [("bookmark_x", .ok (.raw "u"))] "gh" "golang"
  refine ⟨h.1, ?_⟩
  rw [h.2 "bookmark_x" (by decide)]
  rfl

/-- Claim C7: a stored history record whose bytes fail to deserialize is
skipped on its own: listing over a store containing it renders the same
page as listing over the store without it, so the other records are all
still returned. -/
theorem claim_corrupt_record_skipped (db1 db2 : Store) (k bad : String) :
    HistoryHandler none (db1 ++ (k, .ok (.raw bad)) :: db2) =
      HistoryHandler none (db1 ++ db2) := by
  simp only [HistoryHandler, HistoryHandlerEntries, storeScan,
    List.filter_append, List.filter_cons, List.filterMap_append]
  split
  · simp [historyVisit, jsonUnmarshalHistoryEntry]
  · rfl

/-- Claim C8 counterexample: a store whose first history record fails its
db.Get read is listed successfully, the failed read silently omitted, with
no server-side failure reported. -/
theorem claim_get_failure_silently_skipped_cex :
    HistoryHandler none
      [("history_1", .error "input output error"),
       ("history_2", .ok (.jsonHE ⟨2, "gh", "golang"⟩))] =
      .page [⟨2, "gh", "golang"⟩] := rfl

/-- Claim C8 amended: a db.Get failure during the history scan is logged
and skipped exactly like an undecodable record, and the listing still
renders with the remaining entries; only a store-internal scan failure
produces the 500 response. -/
theorem claim_get_failure_skipped (db1 db2 : Store) (k msg : String) :
    HistoryHandler none (db1 ++ (k, .error msg) :: db2) =
      HistoryHandler none (db1 ++ db2) := by
  simp only [HistoryHandler, HistoryHandlerEntries, storeScan,
    List.filter_append, List.filter_cons, List.filterMap_append]
  split
  · simp [historyVisit]
  · rfl

/-- Claim C10: for any marshaller and any db.Put outcome, AddHistoryEntry
returns a marshalling error with the store untouched and no put performed,
and otherwise performs the single put of the serialized record under the
history key, returning the put error unchanged (nil on success, with the
store unchanged when the put fails). -/
theorem claim_append_marshal_put_atomicity
    (marshal : HistoryEntry → Except String Bytes) (putErr : Option String)
    (now : Int) (db : Store) (command value : String) :
    (∀ msg, marshal ⟨now, command, value⟩ = .error msg →
      AddHistoryEntryFx marshal putErr now db command value =
        (some msg, db)) ∧
    (∀ b, marshal ⟨now, command, value⟩ = .ok b →
      AddHistoryEntryFx marshal putErr now db command value =
        (putErr,
          match putErr with
          | some _ => db
          | none => storePut db (BuildHistoryKey now) b)) := by
  constructor
  · intro msg h
    simp only [AddHistoryEntryFx, h]
  · intro b h
    simp only [AddHistoryEntryFx, h]
    cases putErr <;> rfl

/-- Claim C10 witness: a failing marshaller returns its error over an
untouched store; the real marshaller performs the single put, and a
failing put returns its error with the store untouched. -/
theorem claim_append_marshal_put_atomicity_witness :
    AddHistoryEntryFx (fun _ => .error "marshal failed") none 5 [] "gh"
      "golang" = (some "marshal failed", []) ∧
    AddHistoryEntryFx jsonMarshalHistoryEntry none 5 [] "gh" "golang" =
      (none, storePut [] (BuildHistoryKey 5) (.jsonHE ⟨5, "gh", "golang"⟩)) ∧
    AddHistoryEntryFx jsonMarshalHistoryEntry (some "disk full") 5 [] "gh"
      "golang" = (some "disk full", []) := by
  refine ⟨?_, ?_, ?_⟩
  · exact (claim_append_marshal_put_atomicity
      (fun _ => .error "marshal failed") none 5 [] "gh" "golang").1
      "marshal failed" rfl
  · exact (claim_append_marshal_put_atomicity jsonMarshalHistoryEntry none
      5 [] "gh" "golang").2 (.jsonHE ⟨5, "gh", "golang"⟩) rfl
  · exact (claim_append_marshal_put_atomicity jsonMarshalHistoryEntry
      (some "disk full") 5 [] "gh" "golang").2
      (.jsonHE ⟨5, "gh", "golang"⟩) rfl
